import Mathlib

/-!
Verification of the Rowan microframework's controller-composition core.

The definitions below are a shallow embedding of the JavaScript source:

* `src/unnamed/part_009` (camelCase revision of the controllers module;
  textually identical, modulo naming, to `src/rowan/controllers/filters.js`
  lines 56-239; `src/rowan/controllers/core.js` differs in `create_fallback`
  (noted below) and in its error handler's response calls, which fuse the
  status and headers into one `writeHead(status, headers)` — the same
  operations in the same order);
* `src/rowan/core/errors.js` (the `HttpError` record shape).

A controller takes `(context, callback)` and eventually invokes `callback`
with either `null` (success) or an error object. In the embedding a
sub-controller is represented by the completion value it passes to its
callback: `Option HttpErr`, with `none` standing for `callback(null)` and
`some e` for `callback(e)`. Composite controllers become functions from
those completion values (plus the relevant context state) to the completion
value they themselves pass upward, together with whatever state they mutate.
-/

namespace Rowan

/-- An error record as built by `errors.js`: `statusCode` and `description`
fields. `none` models a field that is absent (`undefined` in JavaScript);
the error handler also treats the JavaScript-falsy values `0` and `""` like
absent fields, which is why the defaulting helpers below single them out. -/
structure HttpErr where
  statusCode : Option Nat
  description : Option String
  deriving DecidableEq, Repr

/-- The error built by `new errors.Http404()` (errors.js line 42):
status code 404. Its description is taken from the `httpStatusCodes`
table of the `information/http_codes` module ("Not Found" for 404); no
claim below depends on the description text. -/
def http404 : HttpErr :=
  { statusCode := some 404, description := some "Not Found" }

/-- JavaScript `a || d` for a possibly-absent numeric field: `undefined`
and `0` are falsy, any other number is returned unchanged. Embeds
`error.statusCode || 500` (part_009 line 77). -/
def jsOrNat : Option Nat → Nat → Nat
  | none, d => d
  | some 0, d => d
  | some c, _ => c

/-- JavaScript `a || d` for a possibly-absent string field: `undefined`
and `""` are falsy. Embeds `error.description || "Server Error"`
(part_009 line 79). -/
def jsOrStr : Option String → String → String
  | none, d => d
  | some s, d => if s = "" then d else s

/-- One operation performed on the response object. The error handler in
part_009 uses `setStatus`, `addHeaders`, `write` and `end`; the response
is modelled as the list of operations performed on it, in order. -/
inductive RespEvent where
  | setStatus : Nat → RespEvent
  | addHeaders : List (String × String) → RespEvent
  | write : String → RespEvent
  | endResponse : RespEvent
  deriving DecidableEq, Repr

/-- Embeds `!unhandledErrors || unhandledErrors.indexOf(statusCode) < 0`
(part_009 line 78): `none` models passing no `unhandledErrors` list
(`null` after the argument swap), in which case every code is absorbed;
otherwise a code is absorbed exactly when it is not in the list. -/
def absorbs (unhandledErrors : Option (List Nat)) (code : Nat) : Bool :=
  match unhandledErrors with
  | none => true
  | some l => !(l.contains code)

/-- The four response operations the error handler performs when it
absorbs an error (part_009 lines 81-86): set the status, add the
`Content-Type` header, write the `<h1>` body built from the status code
and description, and end the response. -/
def renderedPage (statusCode : Nat) (description : String) : List RespEvent :=
  [RespEvent.setStatus statusCode,
   RespEvent.addHeaders [("Content-Type", "text/html")],
   RespEvent.write ("<h1>" ++ toString statusCode ++ " " ++ description ++ "</h1>"),
   RespEvent.endResponse]

/-- The inner `handleError(response, error)` of `createErrorHandler`
(part_009 lines 76-91). Returns the boolean the source returns, paired
with the response after the operations the source performs on it. -/
def handleError (unhandledErrors : Option (List Nat)) (response : List RespEvent)
    (error : HttpErr) : Bool × List RespEvent :=
  let statusCode := jsOrNat error.statusCode 500
  if absorbs unhandledErrors statusCode then
    let description := jsOrStr error.description "Server Error"
    (true, response ++ renderedPage statusCode description)
  else
    (false, response)

/-- The wrapped controller built by `createErrorHandler` (part_009 lines
93-103), applied to the completion value `subOutcome` its sub-controller
passes to the inner callback and to the current response state. Result:
the completion value passed to the outer callback, and the response
afterwards. Source: `if (err && !handleError(context.response, err))
callback(err); else callback(null);` — `handleError` runs only when `err`
is truthy, and mutates the response exactly when it returns `true`. -/
def createErrorHandler (unhandledErrors : Option (List Nat))
    (subOutcome : Option HttpErr) (response : List RespEvent) :
    Option HttpErr × List RespEvent :=
  match subOutcome with
  | some err =>
    let handled := handleError unhandledErrors response err
    if handled.1 then (none, handled.2) else (some err, handled.2)
  | none => (none, response)

/-! ## Router (`createRouter`, part_009 lines 13-40) -/

/-- The result of `route.pattern.exec(path)` when it is not `null`: the
index at which the match begins (`match.index`), the matched substring
(`match[0]`), and the captured sub-groups (`match.slice(1)`; the source
guard `match.length > 1` holds exactly when this list is non-empty). -/
structure ExecMatch where
  index : Nat
  matched : String
  groups : List String
  deriving DecidableEq, Repr

/-- A route's pattern, abstracted by its `exec` behaviour: for a path it
either produces a match or `none` (JavaScript `null`). -/
def PatternFn : Type := String → Option ExecMatch

/-- A JavaScript value that `context.patternGroups` can hold: the array it
is initialised to, or the string that `+=` turns it into (see
`addGroups`). -/
inductive JsVal where
  | arr : List String → JsVal
  | str : String → JsVal
  deriving DecidableEq, Repr

/-- JavaScript's ToPrimitive/ToString on such a value: an array becomes
its elements joined by `","` (Array.prototype.toString), a string is
itself. -/
def jsToStr : JsVal → String
  | .arr xs => String.intercalate "," xs
  | .str s => s

/-- JavaScript `v += ys` where `ys` is an array of strings: `+` on these
operands is string concatenation of their ToString conversions, so the
result is always a string, never an array. -/
def jsPlusList (v : JsVal) (ys : List String) : JsVal :=
  .str (jsToStr v ++ String.intercalate "," ys)

/-- The part of the request context the router touches:
`context.remainingPath` and `context.patternGroups`, the latter `none`
when the property is not yet present (`'patternGroups' in context` is
false). -/
structure RouterCtx where
  remainingPath : String
  patternGroups : Option JsVal
  deriving DecidableEq, Repr

/-- Embeds part_009 lines 21-26: if the property is absent, set
`context.patternGroups = []`; then `context.patternGroups +=
match.slice(1)`. -/
def addGroups (ctx : RouterCtx) (groups : List String) : RouterCtx :=
  let pg := match ctx.patternGroups with
    | none => JsVal.arr []
    | some v => v
  { ctx with patternGroups := some (jsPlusList pg groups) }

/-- The context after route `i` matches with result `m` against `path`
(part_009 lines 20-30): groups are appended only when `match.length > 1`,
then `context.remainingPath = path.substr(match.index + match[0].length)`. -/
def matchedCtx (ctx : RouterCtx) (path : String) (m : ExecMatch) : RouterCtx :=
  let ctx1 := if m.groups.length > 0 then addGroups ctx m.groups else ctx
  { ctx1 with remainingPath := path.drop (m.index + m.matched.length) }

/-- What the router does with the context and callback it was given:
either `return route.view(context, callback)` for the route at position
`i` — the same callback object is passed through unchanged, and the
`return` means no later route is tried — or `callback(new
errors.Http404())`. -/
inductive RouterOutcome where
  | view : Nat → RouterCtx → RouterOutcome
  | callbackErr : HttpErr → RouterOutcome
  deriving DecidableEq, Repr

/-- The `for (i in routes)` loop of part_009 lines 16-35, from position
`i` on: for-in over an array visits the index keys in ascending order,
and `path` was read from `context.remainingPath` once before the loop. -/
def routerGo (routes : List PatternFn) (i : Nat) (path : String)
    (ctx : RouterCtx) : RouterOutcome :=
  match routes with
  | [] => .callbackErr http404
  | p :: rest =>
    match p path with
    | some m => .view i (matchedCtx ctx path m)
    | none => routerGo rest (i + 1) path ctx

/-- The controller built by `createRouter(routes)` (part_009 lines
13-40), as a function from the router-relevant context to the outcome. -/
def createRouter (routes : List PatternFn) (ctx : RouterCtx) : RouterOutcome :=
  routerGo routes 0 ctx.remainingPath ctx

/-- Whether the characters `pat` occur at the very start of `s`. Helper for the literal-pattern `exec` below. -/
def isPrefixOfList : List Char → List Char → Bool
  | [], _ => true
  | _ :: _, [] => false
  | a :: as, b :: bs => a == b && isPrefixOfList as bs

/-- The first position at which `pat` occurs in the text, if any. -/
def firstMatchPos (pat : List Char) : List Char → Option Nat
  | [] => if isPrefixOfList pat [] then some 0 else none
  | c :: rest =>
    if isPrefixOfList pat (c :: rest) then some 0
    else (firstMatchPos pat rest).map (fun n => n + 1)

/-- The `exec` behaviour of a regular expression consisting only of
literal characters (no anchors, no groups), e.g. `/foo/`: it matches at
the first occurrence of the literal text anywhere in the path, with
`match.index` that position and `match[0]` the text — JavaScript `exec`
does not anchor at position 0 unless the pattern itself demands it. -/
def strExecPat (pat : String) : PatternFn := fun s =>
  (firstMatchPos pat.toList s.toList).map
    (fun i => { index := i, matched := pat, groups := [] })

/-! ## Fallback chain (`createFallback`, part_009 lines 117-162;
`create_fallback`, core.js lines 125-171)

A sub-controller is abstracted by the completion value it passes to the
callback the fallback hands it (`none` for success). The execution of the
fallback controller is recorded as a trace. -/

/-- The inner `handleError(err)` of the fallback (part_009 lines
125-127): `!validErrors || validErrors.indexOf(err.statusCode) >= 0`.
With no list every error is absorbable; with a list, only errors whose
`statusCode` is in it — `indexOf` on a list of numbers never finds an
absent (`undefined`) field, so an error with no status code is not
absorbable then. (Named `canHandle` here because `handleError` names the
error handler's helper above.) -/
def canHandle (validErrors : Option (List Nat)) (err : HttpErr) : Bool :=
  match validErrors with
  | none => true
  | some l =>
    match err.statusCode with
    | some c => l.contains c
    | none => false

/-- Observable behaviour of one run of a fallback controller:
`invoked` — the positions of the sub-controllers that were called, in
order; `calls` — the values passed to the fallback's own callback, in
order (so the callback contract demands exactly one element); `crash` —
true when the run applies `subControllersCopy[index]` at an index that
holds no function, i.e. calls `undefined` as a function, which in
JavaScript throws a synchronous TypeError instead of using the
callback. -/
structure FallbackTrace where
  invoked : List Nat
  calls : List (Option HttpErr)
  crash : Bool
  deriving DecidableEq, Repr

/-- The recursive `processController(index)` of part_009 lines 135-155
(identical in filters.js lines 178-198). On an error that `canHandle`
absorbs, the source recurses **only under** `if (index+1 <
subControllersCopy.length)`; when the absorbable error came from the last
sub-controller nothing at all runs after that test — in particular the
fallback's callback is never invoked. -/
def processController (validErrors : Option (List Nat))
    (subs : List (Option HttpErr)) (index : Nat) : FallbackTrace :=
  match h : subs.get? index with
  | none => { invoked := [], calls := [], crash := true }
  | some subOutcome =>
    match subOutcome with
    | some err =>
      if canHandle validErrors err then
        if hlt : index + 1 < subs.length then
          let rest := processController validErrors subs (index + 1)
          { invoked := index :: rest.invoked, calls := rest.calls,
            crash := rest.crash }
        else { invoked := [index], calls := [], crash := false }
      else { invoked := [index], calls := [some err], crash := false }
    | none => { invoked := [index], calls := [none], crash := false }
termination_by subs.length - index
decreasing_by omega

/-- The run of the controller built by `createFallback(validErrors,
subControllers)` (part_009 lines 129-161). `subControllersCopy =
subControllers.slice()` is the same list, and `if (subControllersCopy)`
is **always** taken — a JavaScript array, empty or not, is truthy — so
`processController(0)` runs unconditionally and the `else
callback(new errors.Http404())` branch on line 160 is unreachable. -/
def createFallback (validErrors : Option (List Nat))
    (subControllers : List (Option HttpErr)) : FallbackTrace :=
  processController validErrors subControllers 0

/-- The recursive `process_controller(index)` of the core.js revision
(core.js lines 143-163). There the guard is an **empty** statement —
`if (index+1 < sub_controllers_copy.length) { }` — and
`process_controller(index+1)` runs unconditionally after it, so after an
absorbable error from the last sub-controller the recursion proceeds to
an out-of-range index, where applying `undefined` throws. -/
def process_controller (valid_errors : Option (List Nat))
    (subs : List (Option HttpErr)) (index : Nat) : FallbackTrace :=
  match h : subs.get? index with
  | none => { invoked := [], calls := [], crash := true }
  | some subOutcome =>
    match subOutcome with
    | some err =>
      if canHandle valid_errors err then
        let rest := process_controller valid_errors subs (index + 1)
        { invoked := index :: rest.invoked, calls := rest.calls,
          crash := rest.crash }
      else { invoked := [index], calls := [some err], crash := false }
    | none => { invoked := [index], calls := [none], crash := false }
termination_by subs.length - index
decreasing_by
  have : index < subs.length := by
    by_contra hge
    rw [List.get?_eq_none.mpr (by omega)] at h
    exact Option.noConfusion h
  omega

/-- The run of the controller built by `create_fallback(valid_errors,
sub_controllers)` (core.js lines 137-169); as in `createFallback`, the
`if (sub_controllers_copy)` test is always true. -/
def create_fallback (valid_errors : Option (List Nat))
    (sub_controllers : List (Option HttpErr)) : FallbackTrace :=
  process_controller valid_errors sub_controllers 0

/-! ## Scoped data (`createSubtreeData`, part_009 lines 176-196;
`create_subtree_data`, filters.js lines 219-239) -/

/-- A JavaScript object used as `context.data`: its own enumerable
properties (in insertion order) and, for an object made by
`Object.create(parent)`, its prototype. Property values are opaque
payloads, modelled as `Nat`. -/
inductive DataObj where
  | root : List (String × Nat) → DataObj
  | child : List (String × Nat) → DataObj → DataObj
  deriving DecidableEq, Repr

/-- Value of an own property. -/
def lookupOwn (own : List (String × Nat)) (key : String) : Option Nat :=
  match own with
  | [] => none
  | (k, v) :: rest => if k = key then some v else lookupOwn rest key

/-- The own enumerable properties of the object — what
`for (var property in oldData)` filtered by
`oldData.hasOwnProperty(property)` visits (part_009 lines 182-186). -/
def DataObj.ownProps : DataObj → List (String × Nat)
  | .root own => own
  | .child own _ => own

/-- JavaScript property lookup: own properties first, then the prototype
chain. -/
def DataObj.lookup : DataObj → String → Option Nat
  | .root own, key => lookupOwn own key
  | .child own parent, key =>
    match lookupOwn own key with
    | some v => some v
    | none => parent.lookup key

/-- The part of the context `createSubtreeData` touches: `context.data`,
plus a log in which a probe sub-controller can record what it observes
while it runs (standing for any other context field a sub-controller may
write). -/
structure SDCtx where
  data : DataObj
  log : List (Option Nat)
  deriving DecidableEq, Repr

/-- The controller built by `createSubtreeData(data, subController)`
(part_009 lines 176-196). The body saves `oldData = context.data`, builds
`newData = Object.create(oldData)` and copies `oldData`'s own properties
into it — the `data` parameter itself is **never read** in the body, so
the overlay's keys are never installed — installs `newData`, runs the
sub-controller, and in the inner callback restores `context.data =
oldData` before `callback.apply(null, arguments)` forwards the very same
completion arguments. A sub-controller is modelled by how it transforms
the context together with the completion value it passes to the callback
it was given. -/
def createSubtreeData (data : List (String × Nat))
    (subController : SDCtx → SDCtx × Option HttpErr) (ctx : SDCtx) :
    SDCtx × Option HttpErr :=
  let oldData := ctx.data
  let newData := DataObj.child oldData.ownProps oldData
  let afterSub := subController { ctx with data := newData }
  ({ afterSub.1 with data := oldData }, afterSub.2)

/-- A sub-controller that records what `context.data` yields for the keys
`"k"` and `"b"` while it is running, then succeeds. -/
def probeKB : SDCtx → SDCtx × Option HttpErr := fun ctx =>
  ({ ctx with log := ctx.log ++ [ctx.data.lookup "k", ctx.data.lookup "b"] },
   none)

/-! ## Characterisation of the fallback recursion -/

/-- Position `i` holds a sub-controller that completes with an error the
fallback can absorb. -/
def absorbFailAt (validErrors : Option (List Nat))
    (subs : List (Option HttpErr)) (i : Nat) : Bool :=
  match subs.get? i with
  | some (some e) => canHandle validErrors e
  | _ => false

lemma lt_length_of_get?_some {α : Type} {l : List α} {i : Nat} {a : α}
    (h : l.get? i = some a) : i < l.length := by
  by_contra hge
  rw [List.get?_eq_none.mpr (by omega)] at h
  exact Option.noConfusion h

lemma absorbFailAt_of_get?_err {v : Option (List Nat)}
    {subs : List (Option HttpErr)} {i : Nat} {e : HttpErr}
    (h : subs.get? i = some (some e)) :
    absorbFailAt v subs i = canHandle v e := by
  unfold absorbFailAt
  rw [h]

lemma absorbFailAt_of_get?_ok {v : Option (List Nat)}
    {subs : List (Option HttpErr)} {i : Nat}
    (h : subs.get? i = some none) :
    absorbFailAt v subs i = false := by
  unfold absorbFailAt
  rw [h]

lemma forall_in_empty_interval (P : Nat → Prop) (i : Nat) :
    ∀ m, i ≤ m → m < i → P m :=
  fun _ hm1 hm2 => absurd (Nat.lt_of_le_of_lt hm1 hm2) (Nat.lt_irrefl i)

/-- A position is invoked by the recursion started at `i` exactly when it
lies in the list at or after `i` and every position strictly between `i`
and it completed with an absorbable error. -/
lemma mem_invoked_iff (validErrors : Option (List Nat))
    (subs : List (Option HttpErr)) (i j : Nat) :
    j ∈ (processController validErrors subs i).invoked ↔
      (i ≤ j ∧ j < subs.length ∧
        ∀ m, i ≤ m → m < j → absorbFailAt validErrors subs m = true) := by
  rw [processController]
  split
  case _ h =>
    have hge := List.get?_eq_none.mp h
    simp only [List.not_mem_nil, false_iff]
    rintro ⟨h1, h2, -⟩
    omega
  case _ o h =>
    have hi : i < subs.length := lt_length_of_get?_some h
    match o, h with
    | some err, h =>
      dsimp only
      have habs := absorbFailAt_of_get?_err (v := validErrors) h
      cases hcan : canHandle validErrors err with
      | true =>
        rw [hcan] at habs
        rw [if_pos rfl]
        by_cases hlt : i + 1 < subs.length
        · rw [dif_pos hlt]
          have ih := mem_invoked_iff validErrors subs (i + 1) j
          simp only [List.mem_cons, ih]
          constructor
          · rintro (rfl | ⟨h1, h2, h3⟩)
            · exact ⟨Nat.le_refl j, hi, forall_in_empty_interval _ j⟩
            · refine ⟨by omega, h2, fun m hm1 hm2 => ?_⟩
              rcases Nat.eq_or_lt_of_le hm1 with rfl | hmi
              · exact habs
              · exact h3 m (by omega) hm2
          · rintro ⟨h1, h2, h3⟩
            rcases Nat.eq_or_lt_of_le h1 with rfl | hij
            · exact Or.inl rfl
            · exact Or.inr ⟨by omega, h2, fun m hm1 hm2 => h3 m (by omega) hm2⟩
        · rw [dif_neg hlt]
          simp only [List.mem_singleton]
          constructor
          · rintro rfl
            exact ⟨Nat.le_refl j, hi, forall_in_empty_interval _ j⟩
          · rintro ⟨h1, h2, -⟩
            omega
      | false =>
        rw [hcan] at habs
        rw [if_neg Bool.false_ne_true]
        simp only [List.mem_singleton]
        constructor
        · rintro rfl
          exact ⟨Nat.le_refl j, hi, forall_in_empty_interval _ j⟩
        · rintro ⟨h1, h2, h3⟩
          rcases Nat.eq_or_lt_of_le h1 with rfl | hij
          · rfl
          · have hc := h3 i (Nat.le_refl i) hij
            rw [hc] at habs
            exact Bool.noConfusion habs
    | none, h =>
      dsimp only
      have habs := absorbFailAt_of_get?_ok (v := validErrors) h
      simp only [List.mem_singleton]
      constructor
      · rintro rfl
        exact ⟨Nat.le_refl j, hi, forall_in_empty_interval _ j⟩
      · rintro ⟨h1, h2, h3⟩
        rcases Nat.eq_or_lt_of_le h1 with rfl | hij
        · rfl
        · have hc := h3 i (Nat.le_refl i) hij
          rw [hc] at habs
          exact Bool.noConfusion habs
termination_by subs.length - i
decreasing_by
  have := lt_length_of_get?_some h
  omega

/-- If the recursion started at `i` reaches a position holding a
succeeding sub-controller, the fallback's callback receives exactly one
invocation, with `null`. -/
lemma calls_of_success (validErrors : Option (List Nat))
    (subs : List (Option HttpErr)) (j : Nat) (hj : subs.get? j = some none) :
    ∀ i, j ∈ (processController validErrors subs i).invoked →
      (processController validErrors subs i).calls = [none] := by
  intro i
  rw [processController]
  split
  case _ h =>
    intro hmem
    exact absurd hmem (List.not_mem_nil j)
  case _ o h =>
    match o, h with
    | some err, h =>
      dsimp only
      cases hcan : canHandle validErrors err with
      | true =>
        rw [if_pos rfl]
        by_cases hlt : i + 1 < subs.length
        · rw [dif_pos hlt]
          intro hmem
          rcases List.mem_cons.mp hmem with rfl | hmem
          · rw [hj] at h
            exact Option.noConfusion (Option.some.inj h)
          · exact calls_of_success validErrors subs j hj (i + 1) hmem
        · rw [dif_neg hlt]
          intro hmem
          rcases List.mem_singleton.mp hmem with rfl
          rw [hj] at h
          exact Option.noConfusion (Option.some.inj h)
      | false =>
        rw [if_neg Bool.false_ne_true]
        intro hmem
        rcases List.mem_singleton.mp hmem with rfl
        rw [hj] at h
        exact Option.noConfusion (Option.some.inj h)
    | none, h =>
      intro hmem
      rfl
termination_by i => subs.length - i
decreasing_by
  have := lt_length_of_get?_some h
  omega

/-- If the recursion started at `i` reaches a position holding a
sub-controller failing with a non-absorbable error, the fallback's
callback receives exactly one invocation, with that very error. -/
lemma calls_of_escalation (validErrors : Option (List Nat))
    (subs : List (Option HttpErr)) (j : Nat) (e : HttpErr)
    (hj : subs.get? j = some (some e)) (hesc : canHandle validErrors e = false) :
    ∀ i, j ∈ (processController validErrors subs i).invoked →
      (processController validErrors subs i).calls = [some e] := by
  intro i
  rw [processController]
  split
  case _ h =>
    intro hmem
    exact absurd hmem (List.not_mem_nil j)
  case _ o h =>
    match o, h with
    | some err, h =>
      dsimp only
      cases hcan : canHandle validErrors err with
      | true =>
        rw [if_pos rfl]
        by_cases hlt : i + 1 < subs.length
        · rw [dif_pos hlt]
          intro hmem
          rcases List.mem_cons.mp hmem with rfl | hmem
          · rw [hj] at h
            have he := Option.some.inj (Option.some.inj h)
            rw [he] at hesc
            rw [hesc] at hcan
            exact Bool.noConfusion hcan
          · exact calls_of_escalation validErrors subs j e hj hesc (i + 1) hmem
        · rw [dif_neg hlt]
          intro hmem
          rcases List.mem_singleton.mp hmem with rfl
          rw [hj] at h
          have he := Option.some.inj (Option.some.inj h)
          rw [he] at hesc
          rw [hesc] at hcan
          exact Bool.noConfusion hcan
      | false =>
        rw [if_neg Bool.false_ne_true]
        intro hmem
        rcases List.mem_singleton.mp hmem with rfl
        rw [hj] at h
        have he := Option.some.inj (Option.some.inj h)
        rw [he]
    | none, h =>
      intro hmem
      rcases List.mem_singleton.mp hmem with rfl
      rw [hj] at h
      exact Option.noConfusion (Option.some.inj h)
termination_by i => subs.length - i
decreasing_by
  have := lt_length_of_get?_some h
  omega

/-- part_009 revision: when every sub-controller from `i` on fails with
an absorbable error, the run invokes no callback at all and throws
nothing — the last absorbable error triggers neither the recursion nor
any report. -/
lemma run_all_absorb (validErrors : Option (List Nat))
    (subs : List (Option HttpErr)) :
    ∀ i, i < subs.length →
    (∀ k, i ≤ k → k < subs.length → absorbFailAt validErrors subs k = true) →
    (processController validErrors subs i).calls = [] ∧
    (processController validErrors subs i).crash = false := by
  intro i hi hk
  rw [processController]
  split
  case _ h =>
    exact absurd (List.get?_eq_none.mp h) (by omega)
  case _ o h =>
    match o, h with
    | some err, h =>
      dsimp only
      have habs := absorbFailAt_of_get?_err (v := validErrors) h
      rw [hk i (Nat.le_refl i) hi] at habs
      rw [if_pos habs.symm]
      by_cases hlt : i + 1 < subs.length
      · rw [dif_pos hlt]
        exact run_all_absorb validErrors subs (i + 1) hlt
          (fun k hk1 hk2 => hk k (by omega) hk2)
      · rw [dif_neg hlt]
        exact ⟨rfl, rfl⟩
    | none, h =>
      have habs := absorbFailAt_of_get?_ok (v := validErrors) h
      rw [hk i (Nat.le_refl i) hi] at habs
      exact Bool.noConfusion habs
termination_by i => subs.length - i
decreasing_by
  have := lt_length_of_get?_some h
  omega

/-- core.js revision: when every sub-controller from `i` on fails with an
absorbable error, the run reaches the out-of-range index and applies
`undefined` as a function (a synchronous TypeError), never invoking the
callback. -/
lemma core_run_all_absorb (valid_errors : Option (List Nat))
    (subs : List (Option HttpErr)) :
    ∀ i, (∀ k, i ≤ k → k < subs.length → absorbFailAt valid_errors subs k = true) →
    (process_controller valid_errors subs i).calls = [] ∧
    (process_controller valid_errors subs i).crash = true := by
  intro i hk
  rw [process_controller]
  split
  case _ h =>
    exact ⟨rfl, rfl⟩
  case _ o h =>
    have hi : i < subs.length := lt_length_of_get?_some h
    match o, h with
    | some err, h =>
      dsimp only
      have habs := absorbFailAt_of_get?_err (v := valid_errors) h
      rw [hk i (Nat.le_refl i) hi] at habs
      rw [if_pos habs.symm]
      exact core_run_all_absorb valid_errors subs (i + 1)
        (fun k hk1 hk2 => hk k (by omega) hk2)
    | none, h =>
      have habs := absorbFailAt_of_get?_ok (v := valid_errors) h
      rw [hk i (Nat.le_refl i) hi] at habs
      exact Bool.noConfusion habs
termination_by i => subs.length - i
decreasing_by
  have := lt_length_of_get?_some h
  omega

/-! ## Claims about the fallback chain -/

/-- Claim C1 (code_bug evidence). The spec and the source's own doc comment
("the error from the last controller in the list will be passed up") say
that when every sub-controller of a non-empty chain fails with an
absorbable error, the fallback calls its callback exactly once, with the
last error. The code does not: the part_009/filters.js revision
(`createFallback`) invokes its callback zero times and simply stops,
and the core.js revision (`create_fallback`) recurses past the end of
the list and throws a TypeError, also without calling the callback. -/
theorem c1_fallback_exhaustion_never_reports (validErrors : Option (List Nat))
    (subs : List (Option HttpErr)) (hne : subs ≠ [])
    (habs : ∀ o ∈ subs, ∃ e, o = some e ∧ canHandle validErrors e = true) :
    (createFallback validErrors subs).calls = [] ∧
    (createFallback validErrors subs).crash = false ∧
    (create_fallback validErrors subs).calls = [] ∧
    (create_fallback validErrors subs).crash = true := by
  have hlen : 0 < subs.length := List.length_pos.mpr hne
  have hk : ∀ k, 0 ≤ k → k < subs.length →
      absorbFailAt validErrors subs k = true := by
    intro k _ hklt
    rcases hget : subs.get? k with - | o
    · exact absurd (List.get?_eq_none.mp hget) (by omega)
    · have hmem : o ∈ subs := List.get?_mem hget
      rcases habs o hmem with ⟨e, rfl, hcan⟩
      rw [absorbFailAt_of_get?_err hget]
      exact hcan
  have h1 := run_all_absorb validErrors subs 0 hlen hk
  have h2 := core_run_all_absorb validErrors subs 0 hk
  exact ⟨h1.1, h1.2, h2.1, h2.2⟩

/-- Witness for C1: a one-element chain whose controller fails with a 404
and no `validErrors` list. The claim demands one callback invocation with
that error; the traces show zero invocations (and, for core.js, a
synchronous TypeError). -/
theorem c1_fallback_exhaustion_never_reports_witness :
    (createFallback none [some http404]).calls = [] ∧
    (createFallback none [some http404]).crash = false ∧
    (create_fallback none [some http404]).calls = [] ∧
    (create_fallback none [some http404]).crash = true :=
  c1_fallback_exhaustion_never_reports none [some http404]
    (by simp)
    (by
      intro o ho
      rcases List.mem_singleton.mp ho with rfl
      exact ⟨http404, rfl, rfl⟩)

/-- Claim C7 (confirmed; part_009/filters.js revision). (a) For a position
`i+1` inside the list, it is invoked exactly when position `i` was
invoked and completed with an absorbable error. (b) When an invoked
sub-controller succeeds, the fallback's callback receives exactly the
single invocation `callback(null)` and no later position is invoked.
(c) When an invoked sub-controller fails with a non-absorbable error, the
fallback's callback receives exactly the single invocation with that very
error object and no later position is invoked. -/
theorem c7_fallback_shortcircuit_and_escalation (validErrors : Option (List Nat))
    (subs : List (Option HttpErr)) :
    (∀ i, i + 1 < subs.length →
      ((i + 1) ∈ (createFallback validErrors subs).invoked ↔
        (i ∈ (createFallback validErrors subs).invoked ∧
          absorbFailAt validErrors subs i = true))) ∧
    (∀ j, subs.get? j = some none →
      j ∈ (createFallback validErrors subs).invoked →
      ((createFallback validErrors subs).calls = [none] ∧
        ∀ l, j < l → l ∉ (createFallback validErrors subs).invoked)) ∧
    (∀ j e, subs.get? j = some (some e) → canHandle validErrors e = false →
      j ∈ (createFallback validErrors subs).invoked →
      ((createFallback validErrors subs).calls = [some e] ∧
        ∀ l, j < l → l ∉ (createFallback validErrors subs).invoked)) := by
  refine ⟨?_, ?_, ?_⟩
  · intro i hlt
    simp only [createFallback]
    rw [mem_invoked_iff, mem_invoked_iff]
    constructor
    · rintro ⟨-, h2, h3⟩
      exact ⟨⟨Nat.zero_le i, by omega, fun m hm1 hm2 => h3 m hm1 (by omega)⟩,
        h3 i (Nat.zero_le i) (by omega)⟩
    · rintro ⟨⟨-, h2, h3⟩, habs⟩
      refine ⟨Nat.zero_le _, hlt, fun m hm1 hm2 => ?_⟩
      rcases Nat.lt_succ_iff_lt_or_eq.mp hm2 with hmi | rfl
      · exact h3 m hm1 hmi
      · exact habs
  · intro j hj hmem
    refine ⟨calls_of_success validErrors subs j hj 0 hmem, ?_⟩
    intro l hl hmeml
    have hl2 := (mem_invoked_iff validErrors subs 0 l).mp hmeml
    have habs := hl2.2.2 j (Nat.zero_le j) hl
    rw [absorbFailAt_of_get?_ok hj] at habs
    exact Bool.noConfusion habs
  · intro j e hj hesc hmem
    refine ⟨calls_of_escalation validErrors subs j e hj hesc 0 hmem, ?_⟩
    intro l hl hmeml
    have hl2 := (mem_invoked_iff validErrors subs 0 l).mp hmeml
    have habs := hl2.2.2 j (Nat.zero_le j) hl
    rw [absorbFailAt_of_get?_err hj] at habs
    rw [hesc] at habs
    exact Bool.noConfusion habs

/-- Claim C8 (code_bug evidence). The spec and the source's doc comment
("If no controllers are given, a Http 404 error is called-back") say the
empty fallback calls back once with NotFound. In both revisions
`if (subControllersCopy)` is always true (a JavaScript array is truthy,
empty or not), so the `else callback(new errors.Http404())` branch is
dead; instead `processController(0)` reads `subControllersCopy[0]`
(`undefined`) and applies it, throwing a synchronous TypeError with zero
callback invocations. -/
theorem c8_empty_fallback_throws_instead_of_404 :
    createFallback none [] = { invoked := [], calls := [], crash := true } ∧
    create_fallback none [] = { invoked := [], calls := [], crash := true } := by
  constructor
  · show processController none [] 0 = _
    rw [processController]
    rfl
  · show process_controller none [] 0 = _
    rw [process_controller]
    rfl

/-! ## Claims about the router -/

/-- The loop takes the route at offset `i` when that route's pattern
produces a match and every earlier pattern produces none, and the view is
called with the context mutated by `matchedCtx`. -/
lemma routerGo_first_match (path : String) (ctx : RouterCtx) :
    ∀ (routes : List PatternFn) (k i : Nat) (p : PatternFn) (m : ExecMatch),
    routes.get? i = some p → p path = some m →
    (∀ j q, j < i → routes.get? j = some q → q path = none) →
    routerGo routes k path ctx = .view (k + i) (matchedCtx ctx path m) := by
  intro routes
  induction routes with
  | nil =>
    intro k i p m hi
    exact absurd hi (by simp)
  | cons p0 rest ih =>
    intro k i p m hi hm hfirst
    cases i with
    | zero =>
      have hp : p0 = p := Option.some.inj hi
      rw [routerGo, hp, hm]
      rfl
    | succ n =>
      have h0 : p0 path = none := hfirst 0 p0 (Nat.succ_pos n) rfl
      rw [routerGo, h0]
      have step := ih (k + 1) n p m hi hm
        (fun j q hj hq => hfirst (j + 1) q (by omega) hq)
      have harith : k + 1 + n = k + (n + 1) := by omega
      rw [harith] at step
      exact step

/-- When no pattern matches, the loop falls through to
`callback(new errors.Http404())`. -/
lemma routerGo_no_match (path : String) (ctx : RouterCtx) :
    ∀ (routes : List PatternFn) (k : Nat),
    (∀ j q, routes.get? j = some q → q path = none) →
    routerGo routes k path ctx = .callbackErr http404 := by
  intro routes
  induction routes with
  | nil =>
    intro k hall
    rfl
  | cons p0 rest ih =>
    intro k hall
    have h0 : p0 path = none := hall 0 p0 rfl
    rw [routerGo, h0]
    exact ih (k + 1) (fun j q hq => hall (j + 1) q hq)

/-- Claim C3 (confirmed). First match wins: the router invokes exactly the
view of the first route, in declaration order, whose pattern matches the
remaining path (the source loop `return`s at that route, so no other view
runs, and the same `callback` object is handed to the view unchanged);
when no pattern matches — in particular for the empty route list — the
callback is called with the NotFound error, whose status code is 404. -/
theorem c3_router_first_match_wins (routes : List PatternFn) (ctx : RouterCtx) :
    (∀ i p m, routes.get? i = some p → p ctx.remainingPath = some m →
      (∀ j q, j < i → routes.get? j = some q → q ctx.remainingPath = none) →
      createRouter routes ctx =
        RouterOutcome.view i (matchedCtx ctx ctx.remainingPath m)) ∧
    ((∀ j q, routes.get? j = some q → q ctx.remainingPath = none) →
      createRouter routes ctx = RouterOutcome.callbackErr http404) ∧
    http404.statusCode = some 404 := by
  refine ⟨?_, ?_, rfl⟩
  · intro i p m hi hm hfirst
    have step := routerGo_first_match ctx.remainingPath ctx routes 0 i p m hi hm hfirst
    rw [createRouter, step, Nat.zero_add]
  · intro hall
    exact routerGo_no_match ctx.remainingPath ctx routes 0 hall

/-- Claim C5 (code_bug evidence). The source means to append captured
sub-groups to the `patternGroups` array (it initialises the property to
`[]` and the doc says "Add any matched groups"), and the spec calls
`pattern_groups` an ordered sequence; but `context.patternGroups +=
match.slice(1)` applies JavaScript `+`, which coerces both operands to
strings. With previous groups `["x"]` and new captures `["g1", "g2"]`
the property afterwards is the **string** `"xg1,g2"`, not the sequence
`["x", "g1", "g2"]` — not a sequence (array) of any kind. -/
theorem c5_pattern_groups_coerced_to_string :
    createRouter
        [fun _ => some { index := 0, matched := "a", groups := ["g1", "g2"] }]
        { remainingPath := "abc", patternGroups := some (JsVal.arr ["x"]) }
      = RouterOutcome.view 0
          { remainingPath := "bc", patternGroups := some (JsVal.str "xg1,g2") }
    ∧ ∀ xs : List String, JsVal.str "xg1,g2" ≠ JsVal.arr xs := by
  refine ⟨?_, fun xs h => JsVal.noConfusion h⟩
  decide

/-- Claim C6 (counterexample). The claim says a route is taken only when
its pattern's match begins at position 0 of `remainingPath`. Take the
single route whose pattern is the literal regular expression `/foo/` and
the remaining path `"xfoo"`: `exec` matches at index 1, not 0, yet the
router takes the route (and consumes through the end of the match,
leaving `""`). -/
theorem c6_router_anchoring_counterexample :
    createRouter [strExecPat "foo"]
        { remainingPath := "xfoo", patternGroups := none }
      = RouterOutcome.view 0 { remainingPath := "", patternGroups := none }
    ∧ strExecPat "foo" "xfoo" = some { index := 1, matched := "foo", groups := [] } := by
  constructor
  · decide
  · decide

/-- Claim C6 (amended). Each pattern is matched against
`context.remainingPath` by unanchored search — the first route whose
`exec` yields a match anywhere in the remaining path is taken, whether or
not the match begins at position 0 — and after a match beginning at index
`m.index` with matched substring `m.matched`, the new remaining path is
the pre-match remaining path with its first `m.index + m.matched.length`
characters removed (everything up to and including the matched
substring). -/
theorem c6_router_unanchored_match_and_consumption
    (routes : List PatternFn) (ctx : RouterCtx) (i : Nat) (p : PatternFn)
    (m : ExecMatch) (hi : routes.get? i = some p)
    (hm : p ctx.remainingPath = some m)
    (hfirst : ∀ j q, j < i → routes.get? j = some q → q ctx.remainingPath = none) :
    ∃ ctx2, createRouter routes ctx = RouterOutcome.view i ctx2 ∧
      ctx2.remainingPath = ctx.remainingPath.drop (m.index + m.matched.length) := by
  refine ⟨matchedCtx ctx ctx.remainingPath m, ?_, rfl⟩
  have step := routerGo_first_match ctx.remainingPath ctx routes 0 i p m hi hm hfirst
  rw [createRouter, step, Nat.zero_add]

/-- Witness for the amended C6 at the counterexample's input: the single
literal route `/foo/` against remaining path `"xfoo"`, whose match begins
at index 1 and has length 3, leaving `"xfoo".drop 4 = ""`. -/
theorem c6_router_unanchored_match_and_consumption_witness :
    ∃ ctx2, createRouter [strExecPat "foo"]
        { remainingPath := "xfoo", patternGroups := none }
      = RouterOutcome.view 0 ctx2 ∧
      ctx2.remainingPath = String.drop "xfoo" (1 + String.length "foo") :=
  c6_router_unanchored_match_and_consumption
    [strExecPat "foo"] { remainingPath := "xfoo", patternGroups := none }
    0 (strExecPat "foo") { index := 1, matched := "foo", groups := [] }
    rfl (by decide) (fun j q hj _ => absurd hj (Nat.not_lt_zero j))

/-! ## Claims about the error handler -/

lemma jsOrNat_some_of_ne_zero {c : Nat} (d : Nat) (h : c ≠ 0) :
    jsOrNat (some c) d = c := by
  cases c with
  | zero => exact absurd rfl h
  | succ n => rfl

/-- Claim C2 (confirmed). For every completion of the wrapped
sub-controller: success propagates unchanged and untouched; an error
whose status code is not in `unhandledCodes` (or with no such list at
all, `absorbs`) is absorbed — the handler sets that status, adds the
`Content-Type` header, writes the short description body, ends the
response, and passes `null` (success) upward; an error whose status code
is in `unhandledCodes` is passed upward as the very same error object,
with the response untouched. -/
theorem c2_error_handler_absorb_or_reraise (unhandledErrors : Option (List Nat))
    (response : List RespEvent) :
    (createErrorHandler unhandledErrors none response = (none, response)) ∧
    (∀ (e : HttpErr) (c : Nat), e.statusCode = some c → c ≠ 0 →
      absorbs unhandledErrors c = true →
      createErrorHandler unhandledErrors (some e) response =
        (none, response ++ renderedPage c (jsOrStr e.description "Server Error"))) ∧
    (∀ (e : HttpErr) (c : Nat), e.statusCode = some c → c ≠ 0 →
      absorbs unhandledErrors c = false →
      createErrorHandler unhandledErrors (some e) response = (some e, response)) := by
  refine ⟨rfl, ?_, ?_⟩
  · intro e c hc h0 hab
    simp [createErrorHandler, handleError, hc, jsOrNat_some_of_ne_zero 500 h0, hab]
  · intro e c hc h0 hab
    simp [createErrorHandler, handleError, hc, jsOrNat_some_of_ne_zero 500 h0, hab]

/-- Claim C10 (confirmed). Embeds `statusCode || 500` and `description ||
"Server Error"`: an error with an absent (or zero, i.e. falsy) status
code is treated as a 500 both for the membership test against
`unhandledCodes` and for the rendered page; an error with an absent
description is rendered with the body text "Server Error". -/
theorem c10_error_handler_defaults (unhandledErrors : Option (List Nat))
    (response : List RespEvent) :
    (∀ e : HttpErr, e.statusCode = none ∨ e.statusCode = some 0 →
      createErrorHandler unhandledErrors (some e) response =
        if absorbs unhandledErrors 500 then
          (none, response ++ renderedPage 500 (jsOrStr e.description "Server Error"))
        else (some e, response)) ∧
    (∀ e : HttpErr, e.description = none →
      createErrorHandler unhandledErrors (some e) response =
        if absorbs unhandledErrors (jsOrNat e.statusCode 500) then
          (none, response ++ renderedPage (jsOrNat e.statusCode 500) "Server Error")
        else (some e, response)) := by
  constructor
  · intro e hc
    cases habs : absorbs unhandledErrors 500 with
    | true =>
      rcases hc with hc | hc <;>
        simp [createErrorHandler, handleError, hc, jsOrNat, habs]
    | false =>
      rcases hc with hc | hc <;>
        simp [createErrorHandler, handleError, hc, jsOrNat, habs]
  · intro e hd
    cases habs : absorbs unhandledErrors (jsOrNat e.statusCode 500) with
    | true => simp [createErrorHandler, handleError, hd, jsOrStr, habs]
    | false => simp [createErrorHandler, handleError, hd, jsOrStr, habs]

/-! ## Claims about the scoped-data controller -/

/-- Claim C9 (confirmed). Whenever the wrapped sub-controller completes
through its callback — succeeding or failing, and whatever it did to the
context — the controller restores `context.data` to the very value saved
on entry before forwarding, and forwards exactly the completion value the
sub-controller produced (`callback.apply(null, arguments)`). -/
theorem c9_subtree_data_restores (data : List (String × Nat))
    (subController : SDCtx → SDCtx × Option HttpErr) (ctx : SDCtx) :
    (createSubtreeData data subController ctx).1.data = ctx.data ∧
    (createSubtreeData data subController ctx).2 =
      (subController
        { ctx with data := DataObj.child ctx.data.ownProps ctx.data }).2 :=
  ⟨rfl, rfl⟩

/-- Claim C4 (code_bug evidence). The overlay passed to `createSubtreeData`
is supposed to be visible to the sub-controller ("Makes the given data
object visible to the subController and its children", says the source's
own doc comment, and the spec's overlay semantics agree), but the
function body never reads its `data` parameter: with overlay
`{k: 3}` over existing data `{b: 1}`, the running sub-controller sees
nothing for `"k"` (the claim requires `3`) while the untouched key `"b"`
is still visible. -/
theorem c4_overlay_never_installed :
    (createSubtreeData [("k", 3)] probeKB
        { data := DataObj.root [("b", 1)], log := [] }).1.log
      = [none, some 1] := by
  decide

end Rowan
